import Mathlib

/-!
Verification of the multi-GPU pipelined inference scheduler
(`tools/multi_gpu_pipeline.cc`) and of the tensor move/size routines
(`core/framework/tensor.cc`) against their natural-language specification.

The definitions below are a shallow embedding of the C++ source.  Each
definition's doc comment points at the source lines it embeds.  Machine
integers are modelled as `Nat`/`Int`; fallible code returns `Option` or
`Except`.
-/

namespace MultiGpuPipeline

/-- Which of the two rotating preallocated device buffers backs a state view:
`RunState::present_past_prealloc_buffer_1_vec` or
`RunState::present_past_prealloc_buffer_2_vec`. -/
inductive BufSel where
  | buf1
  | buf2
deriving DecidableEq, Repr

/-- A state tensor view as created by `Ort::Value::CreateTensor` over one of
the preallocated device buffers.  We record the device-pointer identity of the
backing memory (which rotating buffer, at which state index `k`) together with
the seq-len dimension of the view's shape; the remaining dimensions are fixed
by the config and play no role in the claims. -/
structure StateView where
  buf : BufSel
  idx : Nat
  seqLen : Nat
deriving DecidableEq, Repr

/-- Keyed lookup on the association-list model of
`RunState::output_val_map`.  The source uses `output_val_map.at(name)`
(`std::unordered_map`; the container supports `.at`, so it has unique keys and
keyed lookup). -/
def mapAt (m : List (String × StateView)) (k : String) : Option StateView :=
  m.lookup k

/-- `std::unordered_map::emplace` (used at line 335 of
`multi_gpu_pipeline.cc`): the element is inserted only when the key is absent;
when the key is already present the map is left unchanged and the call is a
no-op. -/
def mapEmplace (m : List (String × StateView)) (k : String) (v : StateView) :
    List (String × StateView) :=
  if (m.lookup k).isSome then m else (k, v) :: m

/-- `RequestExecutionFrame::RequestExecutionFrame`, lines 126-136: the loop
over `present_output_names` that emplaces, for index `j`, a tensor view over
`present_past_prealloc_buffer_1_vec[j]` whose seq-len dimension is 0
("intentionally 0 since when the model is run the first time, there's no past
state to feed").  `j` is the running index of the loop. -/
def initGo : List String → Nat → List (String × StateView)
  | [], _ => []
  | oname :: rest, j => (oname, StateView.mk BufSel.buf1 j 0) :: initGo rest (j + 1)

/-- The initial `output_val_map` built by the frame constructor
(lines 126-136). -/
def initOutputValMap (present_output_names : List String) :
    List (String × StateView) :=
  initGo present_output_names 0

/-- `RequestProcessor::ProcessRequest`, lines 219-225: when input `iname`
equals `past_input_names[k]`, the bound state input is the value currently
held in `output_val_map` under `present_output_names[k]`. -/
def boundStateInput (output_val_map : List (String × StateView))
    (present_output_names : List String) (k : Nat) : Option StateView :=
  mapAt output_val_map (present_output_names.getD k "")

/-- `RequestProcessor::ProcessRequest`, lines 241-243: `past_seq_len` is read
from the seq-len dimension of the state currently held under
`present_output_names[0]`. -/
def pastSeqLen (output_val_map : List (String × StateView))
    (present_output_names : List String) : Nat :=
  ((mapAt output_val_map (present_output_names.getD 0 "")).map StateView.seqLen).getD 0

/-- `RequestProcessor::ProcessRequest`, lines 262-274: the state output at
index `k` is bound to a fresh tensor view over
`present_past_prealloc_buffer_2_vec[k]` when `step_id` is even and over
`present_past_prealloc_buffer_1_vec[k]` when it is odd, with the seq-len
dimension of the bound shape set to `new_seq_len`. -/
def boundStateOutput (step_id : Nat) (k : Nat) (new_seq_len : Nat) : StateView :=
  StateView.mk (if step_id % 2 == 0 then BufSel.buf2 else BufSel.buf1) k new_seq_len

/-- `RequestProcessor::ProcessRequest`, lines 320-337: the post-run loop over
the outputs.  For each present-output name (index `k` in
`present_output_names`) the produced tensor — the value that was bound for
that output, i.e. `boundStateOutput step_id k new_seq_len` — is `emplace`d
into `output_val_map`. -/
def postRunGo (step_id new_seq_len : Nat) :
    List String → Nat → List (String × StateView) → List (String × StateView)
  | [], _, ovm => ovm
  | oname :: rest, k, ovm =>
      postRunGo step_id new_seq_len rest (k + 1)
        (mapEmplace ovm oname (boundStateOutput step_id k new_seq_len))

/-- The effect of one `ProcessRequest` invocation on `output_val_map`:
`new_seq_len = input_seq_len + past_seq_len` (line 246) followed by the
post-run update loop (lines 320-337). -/
def processStepOVM (present_output_names : List String)
    (step_id input_seq_len : Nat) (ovm : List (String × StateView)) :
    List (String × StateView) :=
  postRunGo step_id (input_seq_len + pastSeqLen ovm present_output_names)
    present_output_names 0 ovm

/-- Iterated `ProcessRequest` invocations of one stage for consecutive steps
starting at `step_id = s0`; `lens` lists the per-step input seq lengths. -/
def runStepsFrom (present_output_names : List String) :
    Nat → List Nat → List (String × StateView) → List (String × StateView)
  | _, [], ovm => ovm
  | s, l :: rest, ovm =>
      runStepsFrom present_output_names (s + 1) rest
        (processStepOVM present_output_names s l ovm)

theorem mapEmplace_of_isSome (m : List (String × StateView)) (k : String)
    (v : StateView) (h : (m.lookup k).isSome = true) : mapEmplace m k v = m := by
  simp [mapEmplace, h]

theorem mapAt_initGo_isSome (present : List String) (j : Nat) (name : String)
    (h : name ∈ present) : (mapAt (initGo present j) name).isSome = true := by
  induction present generalizing j with
  | nil => cases h
  | cons x rest ih =>
      rcases List.mem_cons.mp h with h1 | h2
      · subst h1
        simp [mapAt, initGo, List.lookup]
      · by_cases hx : name == x
        · simp [mapAt, initGo, List.lookup, hx]
        · simpa [mapAt, initGo, List.lookup, hx] using ih (j + 1) h2

theorem postRunGo_frozen (names : List String) (s l k : Nat)
    (ovm : List (String × StateView))
    (h : ∀ n ∈ names, (mapAt ovm n).isSome = true) :
    postRunGo s l names k ovm = ovm := by
  induction names generalizing k with
  | nil => rfl
  | cons x rest ih =>
      have hx : (mapAt ovm x).isSome = true := h x (List.mem_cons_self x rest)
      have hrest : ∀ n ∈ rest, (mapAt ovm n).isSome = true :=
        fun n hn => h n (List.mem_cons_of_mem x hn)
      simp only [postRunGo, mapEmplace_of_isSome ovm x _ hx]
      exact ih (k + 1) hrest

theorem processStepOVM_init_frozen (present : List String) (s l : Nat) :
    processStepOVM present s l (initOutputValMap present) = initOutputValMap present := by
  apply postRunGo_frozen
  intro n hn
  exact mapAt_initGo_isSome present 0 n hn

theorem runStepsFrom_init_frozen (present : List String) (lens : List Nat) (s0 : Nat) :
    runStepsFrom present s0 lens (initOutputValMap present) = initOutputValMap present := by
  induction lens generalizing s0 with
  | nil => rfl
  | cons l rest ih =>
      simp only [runStepsFrom, processStepOVM_init_frozen]
      exact ih (s0 + 1)

theorem mapAt_initGo_of_nodup (present : List String) (j k : Nat)
    (hnd : present.Nodup) (hk : k < present.length) :
    mapAt (initGo present j) (present.getD k "") =
      some (StateView.mk BufSel.buf1 (j + k) 0) := by
  induction present generalizing j k with
  | nil => simp at hk
  | cons x rest ih =>
      cases k with
      | zero =>
          simp [mapAt, initGo, List.lookup]
      | succ k' =>
          have hk' : k' < rest.length := Nat.lt_of_succ_lt_succ hk
          have hmem : rest.getD k' "" ∈ rest := by
            rw [List.getD_eq_getElem rest "" hk']
            exact List.getElem_mem hk'
          have hne : (rest.getD k' "" == x) = false := by
            apply beq_false_of_ne
            intro hx
            exact (List.nodup_cons.mp hnd).1 (hx ▸ hmem)
          have hrest : rest.Nodup := (List.nodup_cons.mp hnd).2
          have hstep := ih (j + 1) k' hrest hk'
          have harith : j + 1 + k' = j + (k' + 1) := by omega
          rw [harith] at hstep
          show List.lookup ((x :: rest).getD (k' + 1) "")
              ((x, StateView.mk BufSel.buf1 j 0) :: initGo rest (j + 1)) = _
          rw [List.getD_cons_succ, List.lookup_cons, hne]
          exact hstep

/-- C1, code evaluation at the failing input: a single stage with one
present output and `orig_input_seq_len = 1`.  After the worker finishes step 0
(input seq len 1), the `output_val_map` entry still is the initial zero-seq-len
view over buffer 1 — `std::unordered_map::emplace` on an existing key is a
no-op — so its seq-len dimension is 0 rather than the
`orig_input_seq_len + accumulated = 1` required by the claim. -/
theorem c1_state_not_replaced :
    ((mapAt (processStepOVM ["present_0"] 0 1 (initOutputValMap ["present_0"]))
        "present_0").map StateView.seqLen) = some 0 ∧
    ((mapAt (processStepOVM ["present_0"] 0 1 (initOutputValMap ["present_0"]))
        "present_0").map StateView.seqLen) ≠ some 1 := by
  decide

/-- C2, code evaluation at the failing input: at step 1 (odd), the device
pointer backing the bound state input at index 0 is still
`present_past_prealloc_buffer_1_vec[0]` (the initial view, never replaced by
the post-run `emplace`), whereas the claim requires buffer 2 at odd steps. -/
theorem c2_input_pointer_at_step1 :
    ((boundStateInput
        (processStepOVM ["present_0"] 0 1 (initOutputValMap ["present_0"]))
        ["present_0"] 0).map StateView.buf) = some BufSel.buf1 ∧
    ((boundStateInput
        (processStepOVM ["present_0"] 0 1 (initOutputValMap ["present_0"]))
        ["present_0"] 0).map StateView.buf) ≠ some BufSel.buf2 := by
  decide

/-- C3 counterexample: at step 0 — an even step id — the claim says the state
input is read from buffer 2, but the bound state input is the initial view
over buffer 1. -/
theorem c3_counterexample :
    ((boundStateInput (initOutputValMap ["present_0"]) ["present_0"] 0).map
        StateView.buf) = some BufSel.buf1 ∧
    ((boundStateInput (initOutputValMap ["present_0"]) ["present_0"] 0).map
        StateView.buf) ≠ some BufSel.buf2 := by
  decide

/-- C3 amended: on every step of every request the state input at index `k` is
read from the initial buffer-1 view (the post-run `emplace` never replaces the
`output_val_map` entry, so no rotation of the input side ever happens), and
the state output is written to buffer 2 when the step id is even and to
buffer 1 when it is odd. -/
theorem c3_amended (present : List String) (lens : List Nat) (s0 k : Nat)
    (hnd : present.Nodup) (hk : k < present.length) :
    boundStateInput (runStepsFrom present s0 lens (initOutputValMap present))
        present k = some (StateView.mk BufSel.buf1 k 0) ∧
    ∀ s new_len, (boundStateOutput s k new_len).buf =
      (if s % 2 = 0 then BufSel.buf2 else BufSel.buf1) := by
  constructor
  · rw [runStepsFrom_init_frozen]
    have := mapAt_initGo_of_nodup present 0 k hnd hk
    simpa [boundStateInput, initOutputValMap] using this
  · intro s new_len
    by_cases h : s % 2 = 0 <;> simp [boundStateOutput, h]

/-- Witness for `c3_amended` at a concrete configuration. -/
theorem c3_amended_witness :
    boundStateInput
        (runStepsFrom ["present_0", "present_1"] 0 [3, 1]
          (initOutputValMap ["present_0", "present_1"]))
        ["present_0", "present_1"] 1 = some (StateView.mk BufSel.buf1 1 0) ∧
    ∀ s new_len, (boundStateOutput s 1 new_len).buf =
      (if s % 2 = 0 then BufSel.buf2 else BufSel.buf1) :=
  c3_amended ["present_0", "present_1"] [3, 1] 0 1 (by decide) (by decide)

/-- Raw IEEE-754 binary16 bit pattern as stored in an `Ort::Float16_t`.
Modelled from the spec: the `Ort::Float16_t` type itself is declared outside
src; the spec fixes the comparison used by the argmax loop as "the raw
IEEE-754 half representation lifted through the runtime's ordering", i.e. the
numeric order of the 16-bit representation, which is the order of these
naturals. -/
abbrev Half := Nat

/-- `GetNewInputIdsFromLogits`, lines 377-381, one row of `tmp`: for batch row
`b` (`batch_id = b * ltwo` with `ltwo = seq * vocab`) the inner loop pushes
`logits_data[batch_id + (seq - 1) * vocab + k]` for `k < vocab` — the logits
of the last sequence position of row `b`. -/
def tmpRow (logits : List Half) (seq vocab b : Nat) : List Half :=
  (List.range vocab).map
    (fun k => logits.getD (b * (seq * vocab) + (seq - 1) * vocab + k) 0)

/-- `GetNewInputIdsFromLogits`, lines 372-381: the full `tmp` buffer, as the
list of its `batch` rows of length `vocab` (the source stores them
contiguously and later scans them with stride `vocab`). -/
def tmpAll (logits : List Half) (batch seq vocab : Nat) : List (List Half) :=
  (List.range batch).map (tmpRow logits seq vocab)

/-- `GetNewInputIdsFromLogits`, lines 386-395: the running-max scan over one
row.  `rest` is the remaining portion of the row, `j` the index of its head
within the row, `(curIdx, curMax)` the argmax so far (`max_idx`, `max`).  The
update fires only on `elem > max`, so ties keep the earlier index. -/
def argmaxGoPair : List Half → Nat → Nat → Half → Nat × Half
  | [], _, curIdx, curMax => (curIdx, curMax)
  | x :: rest, j, curIdx, curMax =>
      if curMax < x then argmaxGoPair rest (j + 1) j x
      else argmaxGoPair rest (j + 1) curIdx curMax

/-- The per-row argmax of lines 384-397: `max` starts at `tmp[batch_id]`,
`max_idx` at 0, then the loop scans indices 1 .. vocab-1. -/
def argmaxRow (row : List Half) : Nat :=
  match row with
  | [] => 0
  | x :: rest => (argmaxGoPair rest 1 0 x).1

/-- `GetNewInputIdsFromLogits`, lines 361-398: the produced `input_ids` values
(one argmax index per batch row, stored as int64) and `input_ids_shape`, which
line 368 sets to `{batch, 1}`. -/
def getNewInputIdsFromLogits (batch seq vocab : Nat) (logits : List Half) :
    List Int × List Int :=
  ((tmpAll logits batch seq vocab).map (fun row => Int.ofNat (argmaxRow row)),
   [Int.ofNat batch, 1])

theorem argmaxGoPair_spec (rest : List Half) :
    ∀ (p : List Half) (curIdx : Nat) (curMax : Half),
      curIdx < p.length →
      p.getD curIdx 0 = curMax →
      (∀ i, i < p.length → p.getD i 0 ≤ curMax) →
      (∀ i, i < curIdx → p.getD i 0 < curMax) →
      (argmaxGoPair rest p.length curIdx curMax).1 < (p ++ rest).length ∧
      (p ++ rest).getD (argmaxGoPair rest p.length curIdx curMax).1 0 =
        (argmaxGoPair rest p.length curIdx curMax).2 ∧
      (∀ i, i < (p ++ rest).length →
        (p ++ rest).getD i 0 ≤ (argmaxGoPair rest p.length curIdx curMax).2) ∧
      (∀ i, i < (argmaxGoPair rest p.length curIdx curMax).1 →
        (p ++ rest).getD i 0 < (argmaxGoPair rest p.length curIdx curMax).2) := by
  induction rest with
  | nil =>
      intro p curIdx curMax hidx hval hub hlt
      simp only [argmaxGoPair, List.append_nil]
      exact ⟨hidx, hval, hub, hlt⟩
  | cons x rest ih =>
      intro p curIdx curMax hidx hval hub hlt
      have hlenx : (p ++ [x]).length = p.length + 1 := by
        simp
      by_cases hgt : curMax < x
      · have hres : argmaxGoPair (x :: rest) p.length curIdx curMax =
            argmaxGoPair rest (p.length + 1) p.length x := by
          simp [argmaxGoPair, hgt]
        have h1 : p.length < (p ++ [x]).length := by
          simp
        have h2 : (p ++ [x]).getD p.length 0 = x := by
          rw [List.getD_append_right p [x] 0 p.length (Nat.le_refl _)]
          simp
        have h3 : ∀ i, i < (p ++ [x]).length → (p ++ [x]).getD i 0 ≤ x := by
          intro i hi
          rcases Nat.lt_or_ge i p.length with hlt' | hge
          · rw [List.getD_append p [x] 0 i hlt']
            exact Nat.le_trans (hub i hlt') (Nat.le_of_lt hgt)
          · have : i = p.length := by
              rw [hlenx] at hi
              omega
            subst this
            rw [h2]
        have h4 : ∀ i, i < p.length → (p ++ [x]).getD i 0 < x := by
          intro i hi
          rw [List.getD_append p [x] 0 i hi]
          exact Nat.lt_of_le_of_lt (hub i hi) hgt
        have := ih (p ++ [x]) p.length x (by rw [hlenx]; omega)
          h2 (by rw [hlenx] at h3 ⊢; exact h3) h4
        rw [hlenx] at this
        rw [List.append_assoc] at this
        simpa [hres] using this
      · have hres : argmaxGoPair (x :: rest) p.length curIdx curMax =
            argmaxGoPair rest (p.length + 1) curIdx curMax := by
          simp [argmaxGoPair, hgt]
        have hxle : x ≤ curMax := Nat.le_of_not_lt hgt
        have h1 : curIdx < (p ++ [x]).length := by
          rw [hlenx]
          omega
        have h2 : (p ++ [x]).getD curIdx 0 = curMax := by
          rw [List.getD_append p [x] 0 curIdx hidx]
          exact hval
        have h3 : ∀ i, i < (p ++ [x]).length → (p ++ [x]).getD i 0 ≤ curMax := by
          intro i hi
          rcases Nat.lt_or_ge i p.length with hlt' | hge
          · rw [List.getD_append p [x] 0 i hlt']
            exact hub i hlt'
          · have : i = p.length := by
              rw [hlenx] at hi
              omega
            subst this
            rw [List.getD_append_right p [x] 0 p.length (Nat.le_refl _)]
            simpa using hxle
        have h4 : ∀ i, i < curIdx → (p ++ [x]).getD i 0 < curMax := by
          intro i hi
          rw [List.getD_append p [x] 0 i (Nat.lt_trans hi hidx)]
          exact hlt i hi
        have := ih (p ++ [x]) curIdx curMax h1 h2 h3 h4
        rw [hlenx] at this
        rw [List.append_assoc] at this
        simpa [hres] using this

theorem argmaxRow_spec (row : List Half) (h : 0 < row.length) :
    argmaxRow row < row.length ∧
    (∀ i, i < row.length → row.getD i 0 ≤ row.getD (argmaxRow row) 0) ∧
    (∀ i, i < argmaxRow row → row.getD i 0 < row.getD (argmaxRow row) 0) := by
  match row with
  | [] => simp at h
  | x :: rest =>
      have hspec := argmaxGoPair_spec rest [x] 0 x (by simp) (by simp)
        (by
          intro i hi
          have h0 : i = 0 := by simpa using hi
          subst h0
          simp)
        (by intro i hi; omega)
      simp only [List.length_singleton, List.singleton_append] at hspec
      obtain ⟨ha, hb, hc, hd⟩ := hspec
      have hrow : argmaxRow (x :: rest) = (argmaxGoPair rest 1 0 x).1 := rfl
      refine ⟨by rw [hrow]; exact ha, ?_, ?_⟩
      · intro i hi
        rw [hrow, hb]
        exact hc i hi
      · intro i hi
        rw [hrow, hb]
        exact hd i (by rw [hrow] at hi; exact hi)

theorem tmpRow_length (logits : List Half) (seq vocab b : Nat) :
    (tmpRow logits seq vocab b).length = vocab := by
  simp [tmpRow]

theorem tmpRow_getD (logits : List Half) (seq vocab b j : Nat) (hj : j < vocab) :
    (tmpRow logits seq vocab b).getD j 0 =
      logits.getD (b * (seq * vocab) + (seq - 1) * vocab + j) 0 := by
  unfold tmpRow
  rw [List.getD_eq_getElem _ _ (by simpa using hj)]
  simp

theorem getNewInputIds_getD (batch seq vocab b : Nat) (logits : List Half)
    (hb : b < batch) :
    ((getNewInputIdsFromLogits batch seq vocab logits).1).getD b 0 =
      Int.ofNat (argmaxRow (tmpRow logits seq vocab b)) := by
  unfold getNewInputIdsFromLogits tmpAll
  rw [List.getD_eq_getElem _ _ (by simpa using hb)]
  simp

/-- Memory location of a tensor (`Ort::MemoryInfo`): CPU (host) memory as
created by `Ort::MemoryInfo::CreateCpu`, or CUDA device memory. -/
inductive MemLoc where
  | cpu
  | cuda
deriving DecidableEq, Repr

/-- Tensor element type, as far as the claims need it. -/
inductive DType where
  | int64
  | float16
deriving DecidableEq, Repr

/-- Value model of an `Ort::Value` tensor: element type, memory placement,
shape, and the int64 payload (empty for non-int64 tensors). -/
structure OrtValueM where
  dtype : DType
  mem : MemLoc
  shape : List Int
  idata : List Int
deriving DecidableEq, Repr

def dummyOrtValue : OrtValueM :=
  OrtValueM.mk DType.float16 MemLoc.cuda [] []

/-- Modelled from the spec: the `Token` type is declared in the missing header
`multi_gpu_pipeline.h`; per spec §3 it carries `req_id`, `step_id` and the
ordered parallel vectors `ort_value_names` / `ort_values`. -/
structure TokenM where
  req_id : Int
  step_id : Nat
  ort_value_names : List String
  ort_values : List OrtValueM
deriving DecidableEq, Repr

/-- `PipelineSession::Run`, lines 542-543 and 549-550:
`Ort::Value::CreateTensor<int64_t>(cpu_memory_info, data, len, shape, rank)` —
an int64 tensor in host memory (`Ort::MemoryInfo::CreateCpu`, line 437). -/
def createCpuTensorI64 (data : List Int) (shape : List Int) : OrtValueM :=
  OrtValueM.mk DType.int64 MemLoc.cpu shape data

/-- C4: greedy next-token selection.  For each batch row `b`, the emitted
`input_ids` entry is the smallest vocab index maximizing the logit at the last
sequence position (index `seq - 1`), the maximum being taken in the order of
the raw 16-bit representations; `input_ids_shape` is `(batch, 1)`, and the
`input_ids` tensor built from these values and this shape —
`Ort::Value::CreateTensor<int64_t>` over `cpu_memory_info`, i.e.
`createCpuTensorI64` — has element type int64, lives in host (CPU) memory and
has shape `(batch, 1)`. -/
theorem c4_greedy_argmax (batch seq vocab b : Nat) (logits : List Half)
    (hb : b < batch) (hv : 0 < vocab) :
    (getNewInputIdsFromLogits batch seq vocab logits).2 = [Int.ofNat batch, 1] ∧
    (createCpuTensorI64 (getNewInputIdsFromLogits batch seq vocab logits).1
        (getNewInputIdsFromLogits batch seq vocab logits).2).dtype = DType.int64 ∧
    (createCpuTensorI64 (getNewInputIdsFromLogits batch seq vocab logits).1
        (getNewInputIdsFromLogits batch seq vocab logits).2).mem = MemLoc.cpu ∧
    (createCpuTensorI64 (getNewInputIdsFromLogits batch seq vocab logits).1
        (getNewInputIdsFromLogits batch seq vocab logits).2).shape =
      [Int.ofNat batch, 1] ∧
    ∃ m : Nat,
      ((getNewInputIdsFromLogits batch seq vocab logits).1).getD b 0 = Int.ofNat m ∧
      m < vocab ∧
      (∀ j, j < vocab →
        logits.getD (b * (seq * vocab) + (seq - 1) * vocab + j) 0 ≤
          logits.getD (b * (seq * vocab) + (seq - 1) * vocab + m) 0) ∧
      (∀ j, j < m →
        logits.getD (b * (seq * vocab) + (seq - 1) * vocab + j) 0 <
          logits.getD (b * (seq * vocab) + (seq - 1) * vocab + m) 0) := by
  refine ⟨rfl, rfl, rfl, rfl, argmaxRow (tmpRow logits seq vocab b),
    getNewInputIds_getD batch seq vocab b logits hb, ?_, ?_, ?_⟩
  · have := (argmaxRow_spec (tmpRow logits seq vocab b)
      (by rw [tmpRow_length]; exact hv)).1
    rwa [tmpRow_length] at this
  · intro j hj
    have hspec := argmaxRow_spec (tmpRow logits seq vocab b)
      (by rw [tmpRow_length]; exact hv)
    have hm : argmaxRow (tmpRow logits seq vocab b) < vocab := by
      have := hspec.1
      rwa [tmpRow_length] at this
    have := hspec.2.1 j (by rw [tmpRow_length]; exact hj)
    rwa [tmpRow_getD logits seq vocab b j hj,
      tmpRow_getD logits seq vocab b _ hm] at this
  · intro j hj
    have hspec := argmaxRow_spec (tmpRow logits seq vocab b)
      (by rw [tmpRow_length]; exact hv)
    have hm : argmaxRow (tmpRow logits seq vocab b) < vocab := by
      have := hspec.1
      rwa [tmpRow_length] at this
    have hjv : j < vocab := Nat.lt_trans hj hm
    have := hspec.2.2 j hj
    rwa [tmpRow_getD logits seq vocab b j hjv,
      tmpRow_getD logits seq vocab b _ hm] at this

/-- Witness for `c4_greedy_argmax`: batch 1, seq 2, vocab 3, logits of the
last position `[7, 9, 9]` — the argmax is index 1 (first of the tied 9s). -/
theorem c4_greedy_argmax_witness :
    (getNewInputIdsFromLogits 1 2 3 [1, 2, 3, 7, 9, 9]).2 = [Int.ofNat 1, 1] ∧
    (createCpuTensorI64 (getNewInputIdsFromLogits 1 2 3 [1, 2, 3, 7, 9, 9]).1
        (getNewInputIdsFromLogits 1 2 3 [1, 2, 3, 7, 9, 9]).2).dtype = DType.int64 ∧
    (createCpuTensorI64 (getNewInputIdsFromLogits 1 2 3 [1, 2, 3, 7, 9, 9]).1
        (getNewInputIdsFromLogits 1 2 3 [1, 2, 3, 7, 9, 9]).2).mem = MemLoc.cpu ∧
    (createCpuTensorI64 (getNewInputIdsFromLogits 1 2 3 [1, 2, 3, 7, 9, 9]).1
        (getNewInputIdsFromLogits 1 2 3 [1, 2, 3, 7, 9, 9]).2).shape =
      [Int.ofNat 1, 1] ∧
    ∃ m : Nat,
      ((getNewInputIdsFromLogits 1 2 3 [1, 2, 3, 7, 9, 9]).1).getD 0 0 = Int.ofNat m ∧
      m < 3 ∧
      (∀ j, j < 3 →
        ([1, 2, 3, 7, 9, 9] : List Half).getD (0 * (2 * 3) + (2 - 1) * 3 + j) 0 ≤
          ([1, 2, 3, 7, 9, 9] : List Half).getD (0 * (2 * 3) + (2 - 1) * 3 + m) 0) ∧
      (∀ j, j < m →
        ([1, 2, 3, 7, 9, 9] : List Half).getD (0 * (2 * 3) + (2 - 1) * 3 + j) 0 <
          ([1, 2, 3, 7, 9, 9] : List Half).getD (0 * (2 * 3) + (2 - 1) * 3 + m) 0) :=
  c4_greedy_argmax 1 2 3 0 [1, 2, 3, 7, 9, 9] (by decide) (by decide)

/-- `PipelineSession::Run`, lines 521-558, the `else` branch taken when the
incremented step id differs from `num_steps`: greedy next-token selection over
the logits, then the token is cleared and refilled with
`ort_value_names = {input_ids_name, position_ids_name}` and the two freshly
created host tensors; `new_posn_id = orig_input_seq_len + step_id - 1`
(line 547) and `posn_ids` is a vector of `batch_size` copies of it
(line 548). -/
def nextStepToken (input_ids_name position_ids_name : String) (req_id : Int)
    (step_id : Nat) (batch_size orig_input_seq_len seq vocab : Nat)
    (logits : List Half) : TokenM :=
  let out := getNewInputIdsFromLogits batch_size seq vocab logits
  let input_ids_tensor := createCpuTensorI64 out.1 out.2
  let new_posn_id : Int := Int.ofNat orig_input_seq_len + Int.ofNat step_id - 1
  let posn_ids := List.replicate batch_size new_posn_id
  let posn_ids_tensor := createCpuTensorI64 posn_ids out.2
  TokenM.mk req_id step_id [input_ids_name, position_ids_name]
    [input_ids_tensor, posn_ids_tensor]

/-- Outcome of the driver's handling of a token that has wrapped around to
stage 0 (`PipelineSession::Run`, lines 500-559). -/
inductive StepOutcome where
  | finish
  | resubmit (t : TokenM)
deriving DecidableEq, Repr

/-- `PipelineSession::Run`, lines 500-559: when the stage id wraps to 0 the
step id is incremented; if it equals `num_steps` the request is finished
(outputs moved out), otherwise the next-step token is built and re-submitted
to stage 0. -/
def handleWrappedStep (num_steps : Nat) (input_ids_name position_ids_name : String)
    (req_id : Int) (prev_step_id : Nat) (batch_size orig_input_seq_len seq vocab : Nat)
    (logits : List Half) : StepOutcome :=
  let step_id := prev_step_id + 1
  if step_id == num_steps then StepOutcome.finish
  else StepOutcome.resubmit
    (nextStepToken input_ids_name position_ids_name req_id step_id
      batch_size orig_input_seq_len seq vocab logits)

/-- C5: when a full step completes and the incremented step id is not
`num_steps`, the re-submitted token carries exactly the two entries
`input_ids_name` and `position_ids_name` in that order, both int64 host
tensors of shape `(batch_size, 1)`, and every element of the position-ids
tensor equals `orig_input_seq_len + step_id - 1` for the new step id. -/
theorem c5_next_step_token (num_steps : Nat) (iname pname : String) (rid : Int)
    (prev_step batch orig seq vocab : Nat) (logits : List Half)
    (hstep : prev_step + 1 ≠ num_steps) :
    ∃ t, handleWrappedStep num_steps iname pname rid prev_step batch orig seq
        vocab logits = StepOutcome.resubmit t ∧
      t.step_id = prev_step + 1 ∧
      t.ort_value_names = [iname, pname] ∧
      t.ort_values.length = 2 ∧
      (∀ v ∈ t.ort_values,
        v.dtype = DType.int64 ∧ v.mem = MemLoc.cpu ∧
        v.shape = [Int.ofNat batch, 1]) ∧
      (t.ort_values.getD 1 dummyOrtValue).idata.length = batch ∧
      (∀ x ∈ (t.ort_values.getD 1 dummyOrtValue).idata,
        x = Int.ofNat orig + Int.ofNat (prev_step + 1) - 1) := by
  refine ⟨nextStepToken iname pname rid (prev_step + 1) batch orig seq vocab logits,
    ?_, rfl, rfl, rfl, ?_, ?_, ?_⟩
  · unfold handleWrappedStep
    have : (prev_step + 1 == num_steps) = false := by
      simpa using hstep
    simp [this]
  · intro v hv
    unfold nextStepToken at hv
    simp only [List.mem_cons, List.not_mem_nil, or_false] at hv
    rcases hv with hv | hv <;> subst hv <;>
      exact ⟨rfl, rfl, rfl⟩
  · show (List.replicate batch (Int.ofNat orig + Int.ofNat (prev_step + 1) - 1)).length = batch
    exact List.length_replicate batch _
  · intro x hx
    exact List.eq_of_mem_replicate hx

/-- Witness for `c5_next_step_token` at a concrete input. -/
theorem c5_next_step_token_witness :
    ∃ t, handleWrappedStep 3 "input_ids" "position_ids" 1 0 2 5 1 2
        [4, 8, 8, 3] = StepOutcome.resubmit t ∧
      t.step_id = 0 + 1 ∧
      t.ort_value_names = ["input_ids", "position_ids"] ∧
      t.ort_values.length = 2 ∧
      (∀ v ∈ t.ort_values,
        v.dtype = DType.int64 ∧ v.mem = MemLoc.cpu ∧
        v.shape = [Int.ofNat 2, 1]) ∧
      (t.ort_values.getD 1 dummyOrtValue).idata.length = 2 ∧
      (∀ x ∈ (t.ort_values.getD 1 dummyOrtValue).idata,
        x = Int.ofNat 5 + Int.ofNat (0 + 1) - 1) :=
  c5_next_step_token 3 "input_ids" "position_ids" 1 0 2 5 1 2 [4, 8, 8, 3]
    (by decide)

/-- Progress of one request through the driver loop: its current stage id and
the step id of its in-flight token. -/
structure ReqProgress where
  stage_id : Nat
  step_id : Nat
deriving DecidableEq, Repr

/-- `PipelineSession::Run`, lines 499-559: on receiving a completion token the
driver advances `stage_id = (stage_id + 1) % num_stages`; when it wraps to 0
the step id is incremented and compared with `num_steps` — equality completes
the request (`none`), otherwise the request is re-submitted with the new
stage/step. -/
def driverAdvance (num_stages num_steps : Nat) (p : ReqProgress) :
    Option ReqProgress :=
  let stage := (p.stage_id + 1) % num_stages
  if stage == 0 then
    let step := p.step_id + 1
    if step == num_steps then none
    else some (ReqProgress.mk stage step)
  else some (ReqProgress.mk stage p.step_id)

/-- `n` iterations of the driver's handling of completion tokens for one
request; `none` means the request has been completed (its outputs moved into
the caller's response slots) and `Run` may count it as processed. -/
def driverIter (num_stages num_steps : Nat) :
    Nat → Option ReqProgress → Option ReqProgress
  | 0, s => s
  | n + 1, s => driverIter num_stages num_steps n (s.bind (driverAdvance num_stages num_steps))

/-- C6, code evaluation: with `num_steps = 0` the driver never completes a
request — the incremented step id (always ≥ 1) is compared against 0 and never
matches, so no request ever reaches the completion branch, `req_processed`
never increases, `Run` never returns (neither success nor failure) and no
response slot is ever written.  This holds for every number of stages and
every number of loop iterations. -/
theorem c6_num_steps_zero_never_completes (num_stages n : Nat) :
    driverIter num_stages 0 n (some (ReqProgress.mk 0 0)) ≠ none := by
  have key : ∀ p : ReqProgress, driverAdvance num_stages 0 p ≠ none := by
    intro p hnone
    unfold driverAdvance at hnone
    by_cases h : ((p.stage_id + 1) % num_stages == 0) <;>
      simp [h] at hnone
  have main : ∀ (m : Nat) (s : Option ReqProgress), s ≠ none →
      driverIter num_stages 0 m s ≠ none := by
    intro m
    induction m with
    | zero => intro s hs; simpa [driverIter] using hs
    | succ k ih =>
        intro s hs
        match s with
        | none => exact absurd rfl hs
        | some p =>
            show driverIter num_stages 0 k (driverAdvance num_stages 0 p) ≠ none
            exact ih (driverAdvance num_stages 0 p) (key p)
  exact main n (some (ReqProgress.mk 0 0)) (by simp)

/-- Index of the first occurrence found by `std::find` inside `Contains`
(lines 63-70). -/
def containsIdx : List String → String → Option Nat
  | [], _ => none
  | x :: rest, t => if x == t then some 0 else (containsIdx rest t).map (fun i => i + 1)

/-- `Contains`, lines 62-70: "returns a pair p; p.first is true if the elem is
found in which case p.second is the index of the elem in the container";
`p.second` is -1 when absent. -/
def containsStr (vec : List String) (to_find : String) : Bool × Int :=
  match containsIdx vec to_find with
  | some i => (true, Int.ofNat i)
  | none => (false, -1)

/-- `PipelineConfig::ModelConfig` (fields relevant to the claims): stage name,
the parallel state-name vectors, and the inter-stage output-to-input map. -/
structure ModelConfig where
  model_name : String
  past_input_names : List String
  present_output_names : List String
  inter_stage_output_input_map : List (String × String)
deriving DecidableEq, Repr

/-- `PipelineConfig` (fields relevant to the claims). -/
structure PipelineConfig where
  input_ids_name : String
  position_ids_name : String
  logits_name : String
  max_seq_len : Nat
  model_config_vec : List ModelConfig
deriving DecidableEq, Repr

/-- `PipelineSession::Validate`, lines 639-642: the body is a TODO
(`// TODO validate`) and accepts every configuration; the constructors
(lines 644-657) merely `assert` this always-true result, so no configuration
is rejected at load or admission time. -/
def validate (_pcfg : PipelineConfig) : Bool :=
  true

/-- `RequestProcessor::ProcessRequest`, lines 324-327: the post-run assertion
`assert(!(is_loop_back_state_output.first && mcfg.inter_stage_output_input_map.count(oname)))`
fires exactly when `oname` is both a present-output name and a key of the
inter-stage map.  It runs inside the stage worker, after `ort_sess.Run`. -/
def postRunAssertFires (mcfg : ModelConfig) (oname : String) : Bool :=
  (containsStr mcfg.present_output_names oname).1 &&
    (mcfg.inter_stage_output_input_map.lookup oname).isSome

/-- A stage config in which the output name "hidden" appears both in
`present_output_names` and as a key of `inter_stage_output_input_map`. -/
def collidingStage : ModelConfig :=
  ModelConfig.mk "stage0" ["past_0"] ["hidden"] [("hidden", "input_hidden_states")]

/-- A pipeline configuration containing `collidingStage`. -/
def collidingConfig : PipelineConfig :=
  PipelineConfig.mk "input_ids" "position_ids" "logits" 128 [collidingStage]

/-- C7 counterexample: `collidingConfig` has an output name in both
`present_output_names` and `inter_stage_output_input_map`, yet `Validate`
accepts it (`true`), so the call does not fail at load or admission time; the
collision is caught only by the stage worker's post-run assert, which runs
inside a stage task after the stage has executed. -/
theorem c7_counterexample :
    postRunAssertFires collidingStage "hidden" = true ∧
    validate collidingConfig = true ∧ validate collidingConfig ≠ false := by
  decide

/-- C7 amended: `Validate` accepts every configuration, including every one
with an output name in both `present_output_names` and
`inter_stage_output_input_map`; such a collision is detected only by the
stage worker's post-run assertion, after the colliding stage has run. -/
theorem c7_amended (pcfg : PipelineConfig) (mcfg : ModelConfig) (oname : String)
    (hpres : (containsStr mcfg.present_output_names oname).1 = true)
    (hmap : (mcfg.inter_stage_output_input_map.lookup oname).isSome = true) :
    validate pcfg = true ∧ postRunAssertFires mcfg oname = true := by
  refine ⟨rfl, ?_⟩
  simp [postRunAssertFires, hpres, hmap]

/-- Witness for `c7_amended` at the colliding configuration. -/
theorem c7_amended_witness :
    validate collidingConfig = true ∧
    postRunAssertFires collidingStage "hidden" = true :=
  c7_amended collidingConfig collidingStage "hidden" (by decide) (by decide)

/-- The error message built at lines 513-514 of `PipelineSession::Run`. -/
def missingOutputMsg (oname : String) : String :=
  "Error: Output " ++ oname ++ " is not produced by the final stage\n"

/-- `PipelineSession::Run`, lines 505-518: the completion loop for a request
whose incremented step id equals `num_steps`.  `resp` models the request's
`resp_list[req_index].output_values` as a slot store indexed by `resp_index`
(the source writes it in place; `output_values.size() == output_names.size()`
is asserted at line 449).  For each requested `oname` in order: if found among
the token's names, move the matching token value into slot `resp_index`;
otherwise return immediately with the error status, leaving the remaining
slots as they are. -/
def completeGo (token_names : List String) (token_vals : List OrtValueM) :
    List String → Nat → (Nat → Option OrtValueM) →
    (Nat → Option OrtValueM) × Option String
  | [], _, resp => (resp, none)
  | oname :: rest, resp_index, resp =>
      let ex := containsStr token_names oname
      if ex.1 then
        completeGo token_names token_vals rest (resp_index + 1)
          (fun j => if j = resp_index
            then some (token_vals.getD ex.2.toNat dummyOrtValue) else resp j)
      else
        (resp, some (missingOutputMsg oname))

/-- The whole completion loop, starting at `resp_index = 0` (line 506). -/
def completeRequest (token_names : List String) (token_vals : List OrtValueM)
    (output_names : List String) (resp : Nat → Option OrtValueM) :
    (Nat → Option OrtValueM) × Option String :=
  completeGo token_names token_vals output_names 0 resp

theorem completeGo_all_present (token_names : List String)
    (token_vals : List OrtValueM) (onames : List String) :
    ∀ (i : Nat) (resp : Nat → Option OrtValueM),
      (∀ o ∈ onames, (containsStr token_names o).1 = true) →
      (completeGo token_names token_vals onames i resp).2 = none ∧
      (∀ j, j < i ∨ i + onames.length ≤ j →
        (completeGo token_names token_vals onames i resp).1 j = resp j) ∧
      (∀ k, k < onames.length →
        (completeGo token_names token_vals onames i resp).1 (i + k) =
          some (token_vals.getD
            ((containsStr token_names (onames.getD k "")).2.toNat) dummyOrtValue)) := by
  induction onames with
  | nil =>
      intro i resp _
      exact ⟨rfl, fun j _ => rfl, fun k hk => absurd hk (by simp)⟩
  | cons o rest ih =>
      intro i resp hall
      have ho : (containsStr token_names o).1 = true :=
        hall o (List.mem_cons_self o rest)
      have hrest : ∀ x ∈ rest, (containsStr token_names x).1 = true :=
        fun x hx => hall x (List.mem_cons_of_mem o hx)
      have hunf : completeGo token_names token_vals (o :: rest) i resp =
          completeGo token_names token_vals rest (i + 1)
            (fun j => if j = i
              then some (token_vals.getD
                ((containsStr token_names o).2.toNat) dummyOrtValue)
              else resp j) := by
        show (let ex := containsStr token_names o
          if ex.1 then _ else _) = _
        simp only [ho, if_true]
      rw [hunf]
      obtain ⟨he, huntouched, hfilled⟩ := ih (i + 1)
        (fun j => if j = i
          then some (token_vals.getD
            ((containsStr token_names o).2.toNat) dummyOrtValue)
          else resp j) hrest
      refine ⟨he, ?_, ?_⟩
      · intro j hj
        simp only [List.length_cons] at hj
        rcases hj with hj | hj
        · have hji : j ≠ i := by omega
          rw [huntouched j (Or.inl (by omega))]
          simp [hji]
        · have hji : j ≠ i := by omega
          rw [huntouched j (Or.inr (by omega))]
          simp [hji]
      · intro k hk
        cases k with
        | zero =>
            have h0 : i + 0 < i + 1 ∨ (i + 1) + rest.length ≤ i + 0 := by
              left; omega
            rw [huntouched (i + 0) h0]
            simp
        | succ k' =>
            have hk' : k' < rest.length := by
              simp only [List.length_cons] at hk
              omega
            have := hfilled k' hk'
            have harith : i + 1 + k' = i + (k' + 1) := by omega
            rw [harith] at this
            simpa using this

theorem completeGo_missing (token_names : List String)
    (token_vals : List OrtValueM) (pre : List String) (oname : String)
    (rest : List String) :
    ∀ (i : Nat) (resp : Nat → Option OrtValueM),
      (∀ o ∈ pre, (containsStr token_names o).1 = true) →
      (containsStr token_names oname).1 = false →
      (completeGo token_names token_vals (pre ++ oname :: rest) i resp).2 =
        some (missingOutputMsg oname) ∧
      (∀ j, i + pre.length ≤ j →
        (completeGo token_names token_vals (pre ++ oname :: rest) i resp).1 j =
          resp j) := by
  induction pre with
  | nil =>
      intro i resp _ hmiss
      have hunf : completeGo token_names token_vals (oname :: rest) i resp =
          (resp, some (missingOutputMsg oname)) := by
        show (let ex := containsStr token_names oname
          if ex.1 then _ else _) = _
        simp only [hmiss, Bool.false_eq_true, if_false]
      rw [List.nil_append, hunf]
      exact ⟨rfl, fun j _ => rfl⟩
  | cons p pre' ih =>
      intro i resp hall hmiss
      have hp : (containsStr token_names p).1 = true :=
        hall p (List.mem_cons_self p pre')
      have hpre' : ∀ o ∈ pre', (containsStr token_names o).1 = true :=
        fun o hx => hall o (List.mem_cons_of_mem p hx)
      have hunf : completeGo token_names token_vals
            ((p :: pre') ++ oname :: rest) i resp =
          completeGo token_names token_vals (pre' ++ oname :: rest) (i + 1)
            (fun j => if j = i
              then some (token_vals.getD
                ((containsStr token_names p).2.toNat) dummyOrtValue)
              else resp j) := by
        show (let ex := containsStr token_names p
          if ex.1 then _ else _) = _
        simp only [hp, if_true]
        rfl
      rw [hunf]
      obtain ⟨he, huntouched⟩ := ih (i + 1)
        (fun j => if j = i
          then some (token_vals.getD
            ((containsStr token_names p).2.toNat) dummyOrtValue)
          else resp j) hpre' hmiss
      refine ⟨he, ?_⟩
      · intro j hj
        have hji : j ≠ i := by
          simp only [List.length_cons] at hj
          omega
        have hj' : i + 1 + pre'.length ≤ j := by
          simp only [List.length_cons] at hj
          omega
        rw [huntouched j hj']
        simp [hji]

/-- A concrete int64 host value used by the C8 counterexample. -/
def exampleVal : OrtValueM :=
  OrtValueM.mk DType.int64 MemLoc.cpu [1, 1] [42]

/-- C8 counterexample: the request asks for outputs `["logits", "extra"]`; the
final token carries only `"logits"`.  The loop first moves the `"logits"`
value into slot 0 and only then hits the missing name, so `Run` returns the
error while the not-fully-completed request's slot 0 has already been
written — it is not left untouched — and the message reads
"Error: Output extra is not produced by the final stage\n", not the claim's
"Output extra not produced by the final stage". -/
theorem c8_counterexample :
    (completeRequest ["logits"] [exampleVal] ["logits", "extra"]
        (fun _ => none)).1 0 = some exampleVal ∧
    (completeRequest ["logits"] [exampleVal] ["logits", "extra"]
        (fun _ => none)).1 0 ≠ none ∧
    (completeRequest ["logits"] [exampleVal] ["logits", "extra"]
        (fun _ => none)).2 =
      some "Error: Output extra is not produced by the final stage\n" := by
  refine ⟨rfl, by simp [completeRequest, completeGo, containsStr, containsIdx,
    missingOutputMsg], rfl⟩

/-- C8 amended: when a request reaches `step_id == num_steps`, the requested
output names are processed in order; each one found among the final token's
names has its value moved into the matching response slot.  If all are found
the loop ends without error and slots beyond the requested names are
untouched.  If some requested name is missing, `Run` returns the fatal error
"Error: Output X is not produced by the final stage" at the first missing
name; slots from that position on (and the responses of other requests) are
left untouched, but the slots of the names processed earlier have already
been written. -/
theorem c8_amended (token_names : List String) (token_vals : List OrtValueM)
    (onames : List String) (resp : Nat → Option OrtValueM) :
    ((∀ o ∈ onames, (containsStr token_names o).1 = true) →
      (completeRequest token_names token_vals onames resp).2 = none ∧
      (∀ j, onames.length ≤ j →
        (completeRequest token_names token_vals onames resp).1 j = resp j) ∧
      (∀ k, k < onames.length →
        (completeRequest token_names token_vals onames resp).1 k =
          some (token_vals.getD
            ((containsStr token_names (onames.getD k "")).2.toNat)
            dummyOrtValue))) ∧
    (∀ pre oname rest, onames = pre ++ oname :: rest →
      (∀ o ∈ pre, (containsStr token_names o).1 = true) →
      (containsStr token_names oname).1 = false →
      (completeRequest token_names token_vals onames resp).2 =
        some (missingOutputMsg oname) ∧
      (∀ j, pre.length ≤ j →
        (completeRequest token_names token_vals onames resp).1 j = resp j)) := by
  constructor
  · intro hall
    obtain ⟨he, huntouched, hfilled⟩ :=
      completeGo_all_present token_names token_vals onames 0 resp hall
    refine ⟨he, ?_, ?_⟩
    · intro j hj
      exact huntouched j (Or.inr (by omega))
    · intro k hk
      have := hfilled k hk
      simpa using this
  · intro pre oname rest heq hall hmiss
    subst heq
    obtain ⟨he, huntouched⟩ :=
      completeGo_missing token_names token_vals pre oname rest 0 resp hall hmiss
    refine ⟨he, ?_⟩
    intro j hj
    exact huntouched j (by omega)

/-- Witness for `c8_amended`: both arms exercised at concrete inputs. -/
theorem c8_amended_witness :
    ((completeRequest ["logits"] [exampleVal] ["logits"] (fun _ => none)).2 =
        none ∧
      (completeRequest ["logits"] [exampleVal] ["logits", "extra"]
          (fun _ => none)).2 =
        some (missingOutputMsg "extra")) :=
  ⟨((c8_amended ["logits"] [exampleVal] ["logits"] (fun _ => none)).1
      (by decide)).1,
   (((c8_amended ["logits"] [exampleVal] ["logits", "extra"] (fun _ => none)).2
      ["logits"] "extra" [] rfl (by decide) (by decide))).1⟩

end MultiGpuPipeline

namespace OnnxTensor

/-!
Model of `onnxruntime::Tensor` (`core/framework/tensor.cc`): the fields
involved in the move operations and the size computation.  The data pointer is
an abstract address (`Option Nat`, `none` = null); deleters are abstract ids —
`ReleaseBuffer` and the destructor report the list of deleters they ran, so
"released at most once" is the statement that across the destruction of both
tensors each original deleter id occurs exactly once. -/

/-- The fields of `onnxruntime::Tensor` touched by the move operations:
`p_data_`, `shape_`, `byte_offset_`, `deleters_` and `dtype_` (the latter
abstracted to its name). -/
structure TensorT where
  p_data : Option Nat
  shape : List Int
  byte_offset : Int
  deleters : List Nat
  dtype : String
deriving DecidableEq, Repr

/-- The state the source leaves a moved-from tensor in (lines 95-99 of the
move constructor and 113-117 of the move assignment): float dtype, shape
`[0]`, null data pointer, zero byte offset, cleared deleter list. -/
def movedFromTensor : TensorT :=
  TensorT.mk none [0] 0 [] "float"

/-- `Tensor::Tensor(Tensor&&)`, lines 88-100: the new tensor takes every field
of `other` (the deleters are moved), then `other` is reset to the moved-from
state.  Returns (constructed tensor, moved-from `other`). -/
def tensorMoveCtor (other : TensorT) : TensorT × TensorT :=
  (TensorT.mk other.p_data other.shape other.byte_offset other.deleters other.dtype,
   movedFromTensor)

/-- `Tensor::ReleaseBuffer`, lines 126-133: runs every deleter once, in order,
erasing each as it goes, leaving the list empty.  Returns (deleters that ran,
tensor afterwards). -/
def releaseBuffer (t : TensorT) : List Nat × TensorT :=
  (t.deleters, TensorT.mk t.p_data t.shape t.byte_offset [] t.dtype)

/-- `Tensor::~Tensor`, lines 122-124: destruction calls `ReleaseBuffer`; the
result is the list of deleters that ran. -/
def destroyTensor (t : TensorT) : List Nat :=
  (releaseBuffer t).1

/-- `Tensor::operator=(Tensor&&)`, lines 102-120, for distinct objects (the
`this != &other` guard makes self-assignment a no-op; object identity is not
expressible in this value model, so the two arguments stand for distinct
tensors): first `ReleaseBuffer` runs the destination's old deleters, then the
destination takes every field of `other` and `other` is reset.  Returns
(new destination, moved-from `other`, deleters run on the old buffer). -/
def tensorMoveAssign (dst : TensorT) (other : TensorT) :
    TensorT × TensorT × List Nat :=
  let rel := releaseBuffer dst
  (TensorT.mk other.p_data other.shape other.byte_offset other.deleters other.dtype,
   movedFromTensor, rel.1)

/-- C9: after move-construction or move-assignment the moved-from tensor is in
the defined empty state — null data pointer, shape `[0]`, zero byte offset,
empty deleter list — so destroying (or release-buffering) the moved-from
tensor runs no deleter, and across the destruction of both tensors each
original deleter runs exactly once (the buffer is released at most once). -/
theorem c9_move_leaves_empty_state (t dst : TensorT) :
    (tensorMoveCtor t).2.p_data = none ∧
    (tensorMoveCtor t).2.shape = [0] ∧
    (tensorMoveCtor t).2.byte_offset = 0 ∧
    (tensorMoveCtor t).2.deleters = [] ∧
    destroyTensor (tensorMoveCtor t).2 = [] ∧
    destroyTensor (tensorMoveCtor t).1 ++ destroyTensor (tensorMoveCtor t).2 =
      t.deleters ∧
    (tensorMoveAssign dst t).2.1.p_data = none ∧
    (tensorMoveAssign dst t).2.1.shape = [0] ∧
    (tensorMoveAssign dst t).2.1.byte_offset = 0 ∧
    (tensorMoveAssign dst t).2.1.deleters = [] ∧
    destroyTensor (tensorMoveAssign dst t).2.1 = [] ∧
    (tensorMoveAssign dst t).2.2 = dst.deleters ∧
    destroyTensor (tensorMoveAssign dst t).1 ++
        destroyTensor (tensorMoveAssign dst t).2.1 = t.deleters := by
  refine ⟨rfl, rfl, rfl, rfl, rfl, ?_, rfl, rfl, rfl, rfl, rfl, rfl, ?_⟩
  · simp [tensorMoveCtor, destroyTensor, releaseBuffer, movedFromTensor]
  · simp [tensorMoveAssign, destroyTensor, releaseBuffer, movedFromTensor]

/-- Width of `size_t` on the 64-bit targets the tool is compiled for. -/
def sizeTMax : Nat := 2 ^ 64 - 1

/-- Modelled from the spec: `TensorShape::Size()` is declared outside src;
it returns the (overflow-checked, non-negative) product of the dimensions.
Dimensions of a constructed tensor are non-negative, so they are `Nat` here
and the `shape_size < 0` throw branch of the source is unreachable in the
model. -/
def shapeSize (dims : List Nat) : Nat :=
  dims.foldl (fun a b => a * b) 1

/-- Modelled from the spec: `IAllocator::CalcMemSizeForArray` is declared
outside src; it computes `nmemb * size` in `size_t` arithmetic and reports
failure exactly when the product overflows `size_t`. -/
def calcMemSizeForArray (nmemb size : Nat) : Option Nat :=
  if nmemb * size ≤ sizeTMax then some (nmemb * size) else none

/-- `Tensor::SizeInBytes`, lines 54-60: `CalcMemSizeForArray(shape_.Size(),
dtype_->Size(), &ret)`, throwing "tensor size overflow" on failure. -/
def sizeInBytes (dims : List Nat) (elt_size : Nat) : Except String Nat :=
  match calcMemSizeForArray (shapeSize dims) elt_size with
  | some ret => Except.ok ret
  | none => Except.error "tensor size overflow"

/-- `Tensor::Tensor(MLDataType, const TensorShape&, std::shared_ptr<IAllocator>)`,
lines 27-52, allocation part: when `shape_size > 0`, compute the byte count
with `CalcMemSizeForArray`, throwing "tensor failed memory size calculation"
on overflow, else allocate exactly that many bytes; when `shape_size = 0`, no
allocation happens (`p_data` stays null).  Returns the allocated length. -/
def tensorAllocCtorLen (dims : List Nat) (elt_size : Nat) :
    Except String (Option Nat) :=
  let shape_size := shapeSize dims
  if 0 < shape_size then
    match calcMemSizeForArray shape_size elt_size with
    | some len => Except.ok (some len)
    | none => Except.error "tensor failed memory size calculation"
  else Except.ok none

/-- C10: `SizeInBytes` returns element count times element size and throws
exactly when that product overflows `size_t`; the allocating constructor
likewise throws on overflow of the byte-size calculation and otherwise
allocates exactly the computed byte count (never an undersized buffer). -/
theorem c10_size_in_bytes (dims : List Nat) (elt_size : Nat) :
    (shapeSize dims * elt_size ≤ sizeTMax →
      sizeInBytes dims elt_size = Except.ok (shapeSize dims * elt_size)) ∧
    (sizeTMax < shapeSize dims * elt_size →
      sizeInBytes dims elt_size = Except.error "tensor size overflow") ∧
    (0 < shapeSize dims → shapeSize dims * elt_size ≤ sizeTMax →
      tensorAllocCtorLen dims elt_size =
        Except.ok (some (shapeSize dims * elt_size))) ∧
    (0 < shapeSize dims → sizeTMax < shapeSize dims * elt_size →
      tensorAllocCtorLen dims elt_size =
        Except.error "tensor failed memory size calculation") ∧
    (shapeSize dims = 0 → tensorAllocCtorLen dims elt_size = Except.ok none) := by
  refine ⟨?_, ?_, ?_, ?_, ?_⟩
  · intro h
    simp [sizeInBytes, calcMemSizeForArray, h]
  · intro h
    simp [sizeInBytes, calcMemSizeForArray, Nat.not_le_of_lt h]
  · intro hpos h
    simp [tensorAllocCtorLen, calcMemSizeForArray, hpos, h]
  · intro hpos h
    simp [tensorAllocCtorLen, calcMemSizeForArray, hpos, Nat.not_le_of_lt h]
  · intro h0
    simp [tensorAllocCtorLen, h0]

/-- Witness for `c10_size_in_bytes`: a shape that fits and one that overflows
the 64-bit byte-size computation. -/
theorem c10_size_in_bytes_witness :
    sizeInBytes [2, 3] 4 = Except.ok (shapeSize [2, 3] * 4) ∧
    sizeInBytes [2 ^ 62, 2 ^ 62] 4 = Except.error "tensor size overflow" ∧
    tensorAllocCtorLen [2, 3] 4 = Except.ok (some (shapeSize [2, 3] * 4)) ∧
    tensorAllocCtorLen [2 ^ 62, 2 ^ 62] 4 =
      Except.error "tensor failed memory size calculation" ∧
    tensorAllocCtorLen [2, 0, 3] 4 = Except.ok none :=
  ⟨(c10_size_in_bytes [2, 3] 4).1 (by decide),
   (c10_size_in_bytes [2 ^ 62, 2 ^ 62] 4).2.1 (by norm_num [shapeSize, sizeTMax]),
   (c10_size_in_bytes [2, 3] 4).2.2.1 (by decide) (by decide),
   (c10_size_in_bytes [2 ^ 62, 2 ^ 62] 4).2.2.2.1
     (by norm_num [shapeSize]) (by norm_num [shapeSize, sizeTMax]),
   (c10_size_in_bytes [2, 0, 3] 4).2.2.2.2 (by decide)⟩

end OnnxTensor
